import Mathlib

/-!
Verification of the template rendering engine of the jj CLI
(src/templater.rs), shallowly embedded in Lean 4.

Conventions of the embedding:
- Rust String values become Lean String values (hex identifiers are kept as
  List Char so that slicing lemmas apply directly); byte vectors become
  List Nat; commit and change identifiers become Nat.
- The Formatter sink is an external collaborator (crate::formatter); it is
  modelled from the spec as an explicit state (label stack plus write log)
  whose write operation may fail, returning the mutated state together with
  a success flag, exactly like a Rust call through a mutable reference that
  returns an io Result.
- Fallible template rendering returns the final formatter state paired with
  a Bool success flag; the question-mark operator of Rust corresponds to an
  early return that keeps the state mutated so far.
-/

/-- Modelled from the spec: the Formatter sink contract of section 6
(write_text, push_label, pop_label, each returning an io Result).  The sink
owns the active label stack and the accumulated output, a list of
(label stack at the time of the write, written text) pairs.  Write failures
are injected through failOn: writing a string that belongs to failOn fails,
which suffices to exercise every error path of the templater. Pushes and
pops always succeed in this model. -/
structure FmtState where
  stack : List String
  out : List (List String × String)
  failOn : List String
deriving DecidableEq, Repr

/-- Modelled from the spec: write_text appends the text under the current
label stack, or fails leaving the state unchanged. -/
def FmtState.write_str (st : FmtState) (s : String) : FmtState × Bool :=
  if s ∈ st.failOn then (st, false)
  else ({ st with out := st.out ++ [(st.stack, s)] }, true)

/-- Modelled from the spec: push_label pushes a label onto the active label
stack (the stack is listed outermost first, so a push appends). -/
def FmtState.push_label (st : FmtState) (l : String) : FmtState × Bool :=
  ({ st with stack := st.stack ++ [l] }, true)

/-- Modelled from the spec: pop_label removes the innermost label. -/
def FmtState.pop_label (st : FmtState) : FmtState × Bool :=
  ({ st with stack := st.stack.dropLast }, true)

/-- The push loop of LabelTemplate::format / DynamicLabelTemplate::format:
for label in labels, push_label(label)?. -/
def pushLabels : FmtState → List String → FmtState × Bool
  | st, [] => (st, true)
  | st, l :: rest =>
    let r := st.push_label l
    if r.2 then pushLabels r.1 rest else (r.1, false)

/-- The pop loop of LabelTemplate::format / DynamicLabelTemplate::format:
one pop_label()? per label. -/
def popLabels : FmtState → Nat → FmtState × Bool
  | st, 0 => (st, true)
  | st, n + 1 =>
    let r := st.pop_label
    if r.2 then popLabels r.1 n else (r.1, false)

/-- Popping n times from a plain list (specification of popLabels). -/
def popStack : List String → Nat → List String
  | s, 0 => s
  | s, n + 1 => popStack s.dropLast n

/-- The closed family of template nodes of templater.rs: LiteralTemplate,
LabelTemplate, DynamicLabelTemplate, ListTemplate, ConditionalTemplate and
StringPropertyTemplate, polymorphic over the context type C.  Properties
are embedded as plain functions from the context. -/
inductive Tmpl (C : Type) where
  | literal (s : String)
  | label (content : Tmpl C) (labels : List String)
  | dynamicLabel (content : Tmpl C) (label_property : C → List String)
  | list (ts : List (Tmpl C))
  | conditional (condition : C → Bool) (true_template : Tmpl C)
      (false_template : Option (Tmpl C))
  | stringProperty (property : C → String)

mutual

/-- Template::format of templater.rs.  Each case mirrors the corresponding
impl: literal writes its text; label pushes each label in order, renders the
content, then pops one label per pushed label, where every fallible call
uses the question-mark operator (early return on failure, keeping the state
mutated so far); dynamicLabel first computes the labels from the context;
list renders each element in order, failing fast; conditional evaluates the
condition and renders exactly one branch; stringProperty extracts the string
and writes it. -/
def Tmpl.format {C : Type} : Tmpl C → C → FmtState → FmtState × Bool
  | .literal s, _, st => st.write_str s
  | .label content labels, c, st =>
    let r := pushLabels st labels
    if r.2 then
      let r2 := content.format c r.1
      if r2.2 then popLabels r2.1 labels.length else (r2.1, false)
    else (r.1, false)
  | .dynamicLabel content label_property, c, st =>
    let labels := label_property c
    let r := pushLabels st labels
    if r.2 then
      let r2 := content.format c r.1
      if r2.2 then popLabels r2.1 labels.length else (r2.1, false)
    else (r.1, false)
  | .list ts, c, st => Tmpl.formatList ts c st
  | .conditional condition t f, c, st =>
    if condition c then t.format c st
    else
      match f with
      | some ft => ft.format c st
      | none => (st, true)
  | .stringProperty property, c, st => st.write_str (property c)

/-- ListTemplate::format: render each template in order, failing fast. -/
def Tmpl.formatList {C : Type} : List (Tmpl C) → C → FmtState → FmtState × Bool
  | [], _, st => (st, true)
  | t :: rest, c, st =>
    let r := t.format c st
    if r.2 then Tmpl.formatList rest c r.1 else (r.1, false)

end

/-- FormattedString of templater.rs: Plain, Labeled (content plus a label
deque, outermost label first) and Concat. -/
inductive FormattedString where
  | plain (s : String)
  | labeled (str : FormattedString) (labels : List String)
  | concat (strs : List FormattedString)
deriving Repr

mutual

/-- FormattedString::to_template: Plain becomes a LiteralTemplate, Labeled a
LabelTemplate over the converted content, Concat a ListTemplate of the
converted elements.  The context type is Unit. -/
def FormattedString.to_template : FormattedString → Tmpl Unit
  | .plain s => .literal s
  | .labeled str labels => .label str.to_template labels
  | .concat strs => .list (FormattedString.to_template_list strs)

/-- The element-wise conversion used by the Concat case. -/
def FormattedString.to_template_list : List FormattedString → List (Tmpl Unit)
  | [] => []
  | s :: rest => s.to_template :: FormattedString.to_template_list rest

end

/-- FormattedString::format: convert to a template and render it against the
unit context. -/
def FormattedString.format (self : FormattedString) (st : FmtState) :
    FmtState × Bool :=
  self.to_template.format () st

/-- FormattedString::prepend_label: a Labeled node gets the new label pushed
at the front of its label deque (new outermost label); any other node is
wrapped in a fresh Labeled node with a singleton label deque. -/
def FormattedString.prepend_label (self : FormattedString) (label : String) :
    FormattedString :=
  match self with
  | .labeled str labels => .labeled str (label :: labels)
  | other => .labeled other [label]

mutual

/-- FormattedString::is_empty: a Plain leaf is empty iff its text is, a
Labeled node iff its content is, a Concat node iff all elements are. -/
def FormattedString.is_empty : FormattedString → Bool
  | .plain s => s.isEmpty
  | .labeled str _ => str.is_empty
  | .concat strs => FormattedString.all_empty strs

/-- The iterator all of the Concat case of is_empty. -/
def FormattedString.all_empty : List FormattedString → Bool
  | [] => true
  | s :: rest => s.is_empty && FormattedString.all_empty rest

end

/-- FormattedString::concat. -/
def FormattedString.concatenate (strings : List FormattedString) :
    FormattedString :=
  .concat strings

/-- FormattedString::join: intersperse the separator and concat. -/
def FormattedString.join (strs : List FormattedString)
    (with_ : FormattedString) : FormattedString :=
  FormattedString.concatenate (List.intersperse with_ strs)

/-- impl From String for FormattedString. -/
def FormattedString.fromString (s : String) : FormattedString :=
  .plain s

/-- The byte accumulation of a PlainTextFormatter output buffer: the
concatenation, in order, of all written texts. -/
def concatTexts (l : List String) : String :=
  l.foldl (fun a b => a ++ b) ""

/-- Modelled from the spec: PlainTextFormatter (crate::formatter) is the
no-op styling sink, a formatter that accumulates written bytes, treats
push_label and pop_label as style no-ops and never fails.  It is the
FmtState with an empty write-failure set and nothing accumulated. -/
def plainTextState : FmtState :=
  { stack := [], out := [], failOn := [] }

/-- impl From FormattedString for String: render through a fresh
PlainTextFormatter and collect the accumulated bytes (from_utf8_lossy is the
identity here because every write is valid UTF-8). -/
def FormattedString.toPlainString (fs : FormattedString) : String :=
  concatTexts (((fs.format plainTextState).1.out).map (fun p => p.2))

/-- The context commit: the fields of jujutsu_lib::commit::Commit that the
extractors under verification read (identifiers are Nat, the description a
String). -/
structure Commit where
  id : Nat
  change_id : Nat
  description : String
deriving DecidableEq, Repr

/-- Rust str::is_empty, at the character level: no characters. -/
def strIsEmpty (s : String) : Bool :=
  s.toList.isEmpty

/-- Rust str::ends_with with a char pattern: the last character is c. -/
def strEndsWith (s : String) (c : Char) : Bool :=
  s.toList.getLast? == some c

/-- DescriptionProperty::extract: empty description gives the fixed
placeholder; a description already ending in a newline is returned as is;
otherwise a newline is appended. -/
def DescriptionProperty.extract (context : Commit) : String :=
  if strIsEmpty context.description then "(no description set)\n"
  else if strEndsWith context.description '\n' then context.description
  else context.description ++ "\n"

/-- The tuple ordering used by iter().sorted() over the workspace map:
lexicographic on (workspace id, working-copy commit id). -/
def pairLe (p q : String × Nat) : Prop :=
  p.1 < q.1 ∨ (p.1 = q.1 ∧ p.2 ≤ q.2)

instance : DecidableRel pairLe := fun p q =>
  inferInstanceAs (Decidable (p.1 < q.1 ∨ (p.1 = q.1 ∧ p.2 ≤ q.2)))

instance : IsTotal (String × Nat) pairLe where
  total p q := by
    rcases lt_trichotomy p.1 q.1 with h | h | h
    · exact Or.inl (Or.inl h)
    · rcases Nat.le_total p.2 q.2 with h2 | h2
      · exact Or.inl (Or.inr ⟨h, h2⟩)
      · exact Or.inr (Or.inr ⟨h.symm, h2⟩)
    · exact Or.inr (Or.inl h)

instance : IsTrans (String × Nat) pairLe where
  trans p q r hpq hqr := by
    rcases hpq with h1 | ⟨e1, n1⟩
    · rcases hqr with h2 | ⟨e2, _⟩
      · exact Or.inl (lt_trans h1 h2)
      · exact Or.inl (e2 ▸ h1)
    · rcases hqr with h2 | ⟨e2, n2⟩
      · exact Or.inl (e1 ▸ h2)
      · exact Or.inr ⟨e1.trans e2, Nat.le_trans n1 n2⟩

instance : IsAntisymm (String × Nat) pairLe where
  antisymm p q hpq hqp := by
    rcases hpq with h1 | ⟨e1, n1⟩
    · rcases hqp with h2 | ⟨e2, _⟩
      · exact absurd (lt_trans h1 h2) (lt_irrefl p.1)
      · exact absurd (e2 ▸ h1) (lt_irrefl q.1)
    · rcases hqp with h2 | ⟨e2, n2⟩
      · exact absurd (e1 ▸ h2) (lt_irrefl q.1)
      · exact Prod.ext e1 (Nat.le_antisymm n1 n2)

/-- The sorted iteration wc_commit_ids.iter().sorted() of
WorkingCopiesProperty::extract. -/
def WorkingCopiesProperty.sortedEntries (wc_commit_ids : List (String × Nat)) :
    List (String × Nat) :=
  List.insertionSort pairLe wc_commit_ids

/-- Vec::join with a separator string. -/
def joinWith (sep : String) : List String → String
  | [] => ""
  | [s] => s
  | s :: rest => s ++ sep ++ joinWith sep rest

/-- The names vector built by the loop of WorkingCopiesProperty::extract:
one entry workspace-id followed by an at sign per sorted entry whose
working-copy commit equals the context commit. -/
def WorkingCopiesProperty.names (wc_commit_ids : List (String × Nat))
    (commit_id : Nat) : List String :=
  ((WorkingCopiesProperty.sortedEntries wc_commit_ids).filter
      (fun p => p.2 == commit_id)).map (fun p => p.1 ++ "@")

/-- WorkingCopiesProperty::extract: empty when the repository has at most
one workspace; otherwise the matching entries of the sorted workspace map,
joined with single spaces. -/
def WorkingCopiesProperty.extract (wc_commit_ids : List (String × Nat))
    (context : Commit) : String :=
  if wc_commit_ids.length ≤ 1 then ""
  else joinWith " " (WorkingCopiesProperty.names wc_commit_ids context.id)

/-- Modelled from the spec: the Target capability of a ref
(jujutsu_lib op_store RefTarget): has_add membership over the commits the
ref added, is_conflict, and structural equality. -/
structure Target where
  adds : List Nat
  conflict : Bool
deriving DecidableEq, Repr

/-- Modelled from the spec: has_add(commit_id). -/
def Target.has_add (self : Target) (commit_id : Nat) : Bool :=
  self.adds.contains commit_id

/-- Modelled from the spec: is_conflict(). -/
def Target.is_conflict (self : Target) : Bool :=
  self.conflict

/-- Modelled from the spec: the per-branch value of the repository view
branch map, an optional local target plus a remote-name-to-target map. -/
structure BranchTarget where
  local_target : Option Target
  remote_targets : List (String × Target)
deriving DecidableEq, Repr

/-- The local-target entry a single branch contributes in
BranchProperty::extract: when the local target exists and added the context
commit, the branch name followed by a divergent-labeled double question mark
when the local target is conflicted, else a remote-and-diff-labeled asterisk
when some remote target differs from the local target. -/
def BranchProperty.localEntry (branch_name : String)
    (branch_target : BranchTarget) (commit_id : Nat) : List FormattedString :=
  match branch_target.local_target with
  | some local_target =>
    if local_target.has_add commit_id then
      [FormattedString.concat
        ([FormattedString.plain branch_name] ++
          (if local_target.is_conflict then
            [FormattedString.prepend_label (FormattedString.plain "??")
              "divergent"]
          else if branch_target.remote_targets.any
              (fun rt => rt.2 != local_target) then
            [FormattedString.prepend_label
              (FormattedString.prepend_label (FormattedString.plain "*")
                "diff") "remote"]
          else []))]
    else []
  | none => []

/-- The remote-target entries a single branch contributes in
BranchProperty::extract: one entry per remote target that differs from the
local target and added the context commit. -/
def BranchProperty.remoteEntries (branch_name : String)
    (branch_target : BranchTarget) (commit_id : Nat) : List FormattedString :=
  branch_target.remote_targets.filterMap (fun p =>
    if some p.2 != branch_target.local_target && p.2.has_add commit_id then
      some (FormattedString.concat
        ([FormattedString.plain branch_name,
          FormattedString.prepend_label (FormattedString.plain "@")
            "separator",
          FormattedString.prepend_label (FormattedString.plain p.1)
            "remote"] ++
          (if p.2.is_conflict then
            [FormattedString.prepend_label (FormattedString.plain "??")
              "divergent"]
          else [])))
    else none)

/-- The names vector of BranchProperty::extract, built branch by branch:
per branch first the local-target entry, then the remote-target entries. -/
def BranchProperty.branchNames (commit_id : Nat) :
    List (String × BranchTarget) → List FormattedString
  | [] => []
  | (branch_name, branch_target) :: rest =>
    BranchProperty.localEntry branch_name branch_target commit_id ++
      BranchProperty.remoteEntries branch_name branch_target commit_id ++
      BranchProperty.branchNames commit_id rest

/-- BranchProperty::extract: all branch entries joined with single
spaces. -/
def BranchProperty.extract (branches : List (String × BranchTarget))
    (context : Commit) : FormattedString :=
  FormattedString.join (BranchProperty.branchNames context.id branches)
    (FormattedString.plain " ")

/-- DivergentProperty: the session cache, the set of divergent
change-identities, here as a decidable membership function. -/
structure DivergentProperty where
  divergent_changes : Nat → Bool

/-- DivergentProperty::new: scan the full history (the change id of every
index entry), count commits per change id, and record the change ids whose
count exceeds one. -/
def DivergentProperty.new (history : List Nat) : DivergentProperty :=
  let commit_count_by_change : Nat → Nat :=
    history.foldl
      (fun m change_id => fun c => if c = change_id then m c + 1 else m c)
      (fun _ => 0)
  ⟨fun change_id => decide (1 < commit_count_by_change change_id)⟩

/-- DivergentProperty::extract: membership of the context commit's change
identity in the cached set. -/
def DivergentProperty.extract (self : DivergentProperty) (context : Commit) :
    Bool :=
  self.divergent_changes context.change_id

/-- One lowercase hex digit. -/
def hexDigit (n : Nat) : Char :=
  if n < 10 then Char.ofNat (48 + n) else Char.ofNat (87 + n)

/-- The two hex digits of one byte, high nibble first. -/
def hexByte (b : Nat) : List Char :=
  [hexDigit (b / 16 % 16), hexDigit (b % 16)]

/-- CommitOrChangeId::hex: lowercase hex encoding of the wrapped bytes
(hex::encode), as a character list. -/
def CommitOrChangeId.hex (id : List Nat) : List Char :=
  (id.map hexByte).flatten

/-- CommitOrChangeId::short: the hex encoding truncated to 12 characters. -/
def CommitOrChangeId.short (id : List Nat) : List Char :=
  (CommitOrChangeId.hex id).take 12

/-- A Rust string slice hex[a..b], in characters (the hex encoding is
ASCII, so byte and character indices agree). -/
def strSlice (l : List Char) (a b : Nat) : List Char :=
  (l.take b).drop a

/-- highlight_shortest_prefix of templater.rs, with the repository's
shortest-unique-prefix answer passed in as prefix_len: below
total_len - 2, the unique part plain followed by the rest up to
total_len - 2 in square brackets; otherwise the hex truncated to
total_len. -/
def highlight_shortest_prefix (id : List Nat) (total_len : Nat)
    (prefix_len : Nat) : List Char :=
  let hex := CommitOrChangeId.hex id
  if prefix_len < total_len - 2 then
    strSlice hex 0 prefix_len ++ ('[' :: strSlice hex prefix_len (total_len - 2)) ++ [']']
  else
    hex.take total_len

/-- CommitOrChangeId::short_prefix_and_brackets: highlight with
total_len 12. -/
def CommitOrChangeId.short_prefix_and_brackets (id : List Nat)
    (prefix_len : Nat) : List Char :=
  highlight_shortest_prefix id 12 prefix_len

/-- Claim-side reading of the Branch extractor, local part, written from the
spec sentence: for each branch whose local target exists and added the
commit, the branch name, followed by a double question mark labeled
divergent when the local target is conflicted, else an asterisk labeled
remote then diff (outermost first) when some remote target differs from the
local target. -/
def branchSpecLocal (branch_name : String) (branch_target : BranchTarget)
    (commit_id : Nat) : List FormattedString :=
  match branch_target.local_target with
  | none => []
  | some local_target =>
    if local_target.has_add commit_id then
      [FormattedString.concat
        ([FormattedString.plain branch_name] ++
          (if local_target.is_conflict then
            [FormattedString.labeled (FormattedString.plain "??")
              ["divergent"]]
          else if branch_target.remote_targets.any
              (fun rt => rt.2 != local_target) then
            [FormattedString.labeled (FormattedString.plain "*")
              ["remote", "diff"]]
          else []))]
    else []

/-- Claim-side reading of the Branch extractor, remote part: for every
remote target that differs from the local target (or where no local target
exists) and added the commit, the branch name, an at sign labeled
separator, the remote name labeled remote, plus a double question mark
labeled divergent when that remote target is conflicted. -/
def branchSpecRemote (branch_name : String) (branch_target : BranchTarget)
    (commit_id : Nat) : List FormattedString :=
  branch_target.remote_targets.filterMap (fun p =>
    if some p.2 != branch_target.local_target && p.2.has_add commit_id then
      some (FormattedString.concat
        ([FormattedString.plain branch_name,
          FormattedString.labeled (FormattedString.plain "@") ["separator"],
          FormattedString.labeled (FormattedString.plain p.1) ["remote"]] ++
          (if p.2.is_conflict then
            [FormattedString.labeled (FormattedString.plain "??")
              ["divergent"]]
          else [])))
    else none)

/-- Claim-side reading of the Branch extractor: all emitted pieces across
all branches, joined with a single space. -/
def branchSpec (branches : List (String × BranchTarget)) (commit_id : Nat) :
    FormattedString :=
  FormattedString.join
    (branches.flatMap (fun p =>
      branchSpecLocal p.1 p.2 commit_id ++ branchSpecRemote p.1 p.2 commit_id))
    (FormattedString.plain " ")

mutual

/-- The reachable Plain leaf texts of a formatted string, in order. -/
def FormattedString.leafTexts : FormattedString → List String
  | .plain s => [s]
  | .labeled str _ => str.leafTexts
  | .concat strs => FormattedString.leafTextsList strs

/-- Leaf texts of a list of formatted strings, in order. -/
def FormattedString.leafTextsList : List FormattedString → List String
  | [] => []
  | s :: rest => s.leafTexts ++ FormattedString.leafTextsList rest

end

/-- The in-order concatenation of the Plain leaf texts. -/
def FormattedString.leafConcat (fs : FormattedString) : String :=
  concatTexts fs.leafTexts

mutual

/-- Denotational write log of rendering a formatted string under a given
active label stack: one (stack, text) entry per Plain leaf, the stack
extended by the labels of the enclosing Labeled nodes. -/
def FormattedString.pieces (stack : List String) :
    FormattedString → List (List String × String)
  | .plain s => [(stack, s)]
  | .labeled str labels => str.pieces (stack ++ labels)
  | .concat strs => FormattedString.piecesList stack strs

/-- Write log of a list of formatted strings, in order. -/
def FormattedString.piecesList (stack : List String) :
    List FormattedString → List (List String × String)
  | [] => []
  | s :: rest => s.pieces stack ++ FormattedString.piecesList stack rest

end

theorem pushLabels_eq : ∀ (ls : List String) (st : FmtState),
    pushLabels st ls = ({ st with stack := st.stack ++ ls }, true) := by
  intro ls
  induction ls with
  | nil => intro st; simp [pushLabels]
  | cons l rest ih =>
    intro st
    simp [pushLabels, FmtState.push_label, ih]

theorem popLabels_eq : ∀ (n : Nat) (st : FmtState),
    popLabels st n = ({ st with stack := popStack st.stack n }, true) := by
  intro n
  induction n with
  | zero => intro st; simp [popLabels, popStack]
  | succ m ih =>
    intro st
    simp [popLabels, FmtState.pop_label, ih, popStack]

theorem popStack_add : ∀ (a b : Nat) (s : List String),
    popStack s (a + b) = popStack (popStack s a) b := by
  intro a
  induction a with
  | zero => intro b s; simp [popStack]
  | succ m ih =>
    intro b s
    have h : m + 1 + b = (m + b) + 1 := by omega
    rw [h]
    show popStack s.dropLast (m + b) = popStack (popStack s.dropLast m) b
    exact ih b s.dropLast

theorem popStack_append : ∀ (l s : List String),
    popStack (s ++ l) l.length = s := by
  intro l
  induction l using List.reverseRecOn with
  | nil => intro s; simp [popStack]
  | append_singleton l a ih =>
    intro s
    rw [show s ++ (l ++ [a]) = (s ++ l) ++ [a] by simp,
      show (l ++ [a]).length = l.length + 1 by simp]
    show popStack ((s ++ l) ++ [a]).dropLast l.length = s
    rw [List.dropLast_concat]
    exact ih s

mutual

theorem Tmpl.format_stack {C : Type} :
    ∀ (t : Tmpl C) (c : C) (st : FmtState),
      (t.format c st).2 = true → (t.format c st).1.stack = st.stack
  | .literal s, c, st => by
    simp only [Tmpl.format, FmtState.write_str]
    split
    · simp
    · simp
  | .label content labels, c, st => by
    simp only [Tmpl.format, pushLabels_eq]
    rcases hf : content.format c { st with stack := st.stack ++ labels }
      with ⟨st2, ok⟩
    cases ok with
    | false => simp
    | true =>
      have hst2 : st2.stack = st.stack ++ labels := by
        have h1 := Tmpl.format_stack content c
          { st with stack := st.stack ++ labels }
        rw [hf] at h1
        simpa using h1 rfl
      intro _
      simp [popLabels_eq, hst2, popStack_append]
  | .dynamicLabel content label_property, c, st => by
    simp only [Tmpl.format, pushLabels_eq]
    rcases hf : content.format c
        { st with stack := st.stack ++ label_property c } with ⟨st2, ok⟩
    cases ok with
    | false => simp
    | true =>
      have hst2 : st2.stack = st.stack ++ label_property c := by
        have h1 := Tmpl.format_stack content c
          { st with stack := st.stack ++ label_property c }
        rw [hf] at h1
        simpa using h1 rfl
      intro _
      simp [popLabels_eq, hst2, popStack_append]
  | .list ts, c, st => by
    simp only [Tmpl.format]
    exact Tmpl.formatList_stack ts c st
  | .conditional condition t f, c, st => by
    cases f with
    | some ft =>
      simp only [Tmpl.format]
      cases hc : condition c with
      | true =>
        simp only [hc, if_pos]
        exact Tmpl.format_stack t c st
      | false =>
        simp only [hc, Bool.false_eq_true, if_neg, not_false_iff]
        exact Tmpl.format_stack ft c st
    | none =>
      simp only [Tmpl.format]
      cases hc : condition c with
      | true =>
        simp only [hc, if_pos]
        exact Tmpl.format_stack t c st
      | false =>
        simp only [hc, Bool.false_eq_true, if_neg, not_false_iff]
        intro _
        trivial
  | .stringProperty property, c, st => by
    simp only [Tmpl.format, FmtState.write_str]
    split
    · simp
    · simp

theorem Tmpl.formatList_stack {C : Type} :
    ∀ (ts : List (Tmpl C)) (c : C) (st : FmtState),
      (Tmpl.formatList ts c st).2 = true →
        (Tmpl.formatList ts c st).1.stack = st.stack
  | [], c, st => by intro h; rfl
  | t :: rest, c, st => by
    simp only [Tmpl.formatList]
    rcases hf : t.format c st with ⟨st2, ok⟩
    cases ok with
    | false => simp
    | true =>
      have h1 : st2.stack = st.stack := by
        have h2 := Tmpl.format_stack t c st
        rw [hf] at h2
        simpa using h2 rfl
      intro h
      simp only at h ⊢
      rw [← h1]
      exact Tmpl.formatList_stack rest c st2 (by simpa using h)

end

theorem Tmpl.format_label_append {C : Type} (t : Tmpl C) (ls1 ls2 : List String)
    (c : C) (st : FmtState) :
    (Tmpl.label t (ls1 ++ ls2)).format c st =
      (Tmpl.label (Tmpl.label t ls2) ls1).format c st := by
  simp only [Tmpl.format, pushLabels_eq, List.append_assoc]
  rcases hf : t.format c { st with stack := st.stack ++ (ls1 ++ ls2) }
    with ⟨st2, ok⟩
  cases ok with
  | false => simp
  | true =>
    simp only [popLabels_eq, List.length_append]
    have h : popStack st2.stack (ls1.length + ls2.length)
        = popStack (popStack st2.stack ls2.length) ls1.length := by
      rw [Nat.add_comm]
      exact popStack_add ls2.length ls1.length st2.stack
    simp [h]

mutual

theorem FormattedString.format_pieces :
    ∀ (fs : FormattedString) (st : FmtState), st.failOn = [] →
      fs.to_template.format () st =
        ({ st with out := st.out ++ fs.pieces st.stack }, true)
  | .plain s, st => by
    intro hfail
    simp [FormattedString.to_template, Tmpl.format, FmtState.write_str, hfail,
      FormattedString.pieces]
  | .labeled str labels, st => by
    intro hfail
    simp only [FormattedString.to_template, Tmpl.format, pushLabels_eq]
    rw [FormattedString.format_pieces str
      { st with stack := st.stack ++ labels } hfail]
    simp [popLabels_eq, popStack_append, FormattedString.pieces]
  | .concat strs, st => by
    intro hfail
    simp only [FormattedString.to_template, Tmpl.format]
    rw [FormattedString.formatList_pieces strs st hfail]
    simp [FormattedString.pieces]

theorem FormattedString.formatList_pieces :
    ∀ (strs : List FormattedString) (st : FmtState), st.failOn = [] →
      Tmpl.formatList (FormattedString.to_template_list strs) () st =
        ({ st with out := st.out ++ FormattedString.piecesList st.stack strs },
          true)
  | [], st => by
    intro _
    simp [FormattedString.to_template_list, Tmpl.formatList,
      FormattedString.piecesList]
  | s :: rest, st => by
    intro hfail
    simp only [FormattedString.to_template_list, Tmpl.formatList]
    rw [FormattedString.format_pieces s st hfail]
    simp only [if_pos rfl]
    rw [FormattedString.formatList_pieces rest
      { st with out := st.out ++ s.pieces st.stack } hfail]
    simp [FormattedString.piecesList, List.append_assoc]

end

mutual

theorem FormattedString.pieces_texts :
    ∀ (fs : FormattedString) (stack : List String),
      (fs.pieces stack).map (fun p => p.2) = fs.leafTexts
  | .plain s, stack => by
    simp [FormattedString.pieces, FormattedString.leafTexts]
  | .labeled str labels, stack => by
    simp only [FormattedString.pieces, FormattedString.leafTexts]
    exact FormattedString.pieces_texts str (stack ++ labels)
  | .concat strs, stack => by
    simp only [FormattedString.pieces, FormattedString.leafTexts]
    exact FormattedString.piecesList_texts strs stack

theorem FormattedString.piecesList_texts :
    ∀ (strs : List FormattedString) (stack : List String),
      (FormattedString.piecesList stack strs).map (fun p => p.2) =
        FormattedString.leafTextsList strs
  | [], stack => rfl
  | s :: rest, stack => by
    simp only [FormattedString.piecesList, FormattedString.leafTextsList,
      List.map_append]
    rw [FormattedString.pieces_texts s stack,
      FormattedString.piecesList_texts rest stack]

end

theorem string_isEmpty_beq (s : String) : s.isEmpty = (s == "") := by
  by_cases h : s = ""
  · subst h; rfl
  · have h1 : s.isEmpty = false := by
      cases he : s.isEmpty with
      | false => rfl
      | true => exact absurd (String.isEmpty_iff s |>.mp he) h
    have h2 : (s == "") = false := beq_eq_false_iff_ne.mpr h
    rw [h1, h2]

mutual

theorem FormattedString.is_empty_eq_all_leaves :
    ∀ fs : FormattedString,
      fs.is_empty = fs.leafTexts.all (fun s => s == "")
  | .plain s => by
    simp [FormattedString.is_empty, FormattedString.leafTexts,
      string_isEmpty_beq]
  | .labeled str labels => by
    simp only [FormattedString.is_empty, FormattedString.leafTexts]
    exact FormattedString.is_empty_eq_all_leaves str
  | .concat strs => by
    simp only [FormattedString.is_empty, FormattedString.leafTexts]
    exact FormattedString.all_empty_eq_all_leaves strs

theorem FormattedString.all_empty_eq_all_leaves :
    ∀ strs : List FormattedString,
      FormattedString.all_empty strs =
        (FormattedString.leafTextsList strs).all (fun s => s == "")
  | [] => rfl
  | s :: rest => by
    simp only [FormattedString.all_empty, FormattedString.leafTextsList,
      List.all_append]
    rw [FormattedString.is_empty_eq_all_leaves s,
      FormattedString.all_empty_eq_all_leaves rest]

end

theorem hexDigit_ne_bracket (n : Nat) (h : n < 16) : hexDigit n ≠ '[' := by
  interval_cases n <;> decide

theorem hex_not_bracket (id : List Nat) : '[' ∉ CommitOrChangeId.hex id := by
  intro hmem
  simp only [CommitOrChangeId.hex] at hmem
  rw [List.mem_flatten] at hmem
  obtain ⟨l, hl, hcl⟩ := hmem
  rw [List.mem_map] at hl
  obtain ⟨b, _, rfl⟩ := hl
  simp only [hexByte, List.mem_cons, List.not_mem_nil, or_false] at hcl
  rcases hcl with h | h
  · exact hexDigit_ne_bracket _ (Nat.mod_lt _ (by decide)) h.symm
  · exact hexDigit_ne_bracket _ (Nat.mod_lt _ (by decide)) h.symm

theorem foldl_count_aux (history : List Nat) : ∀ (m : Nat → Nat) (c : Nat),
    (history.foldl
        (fun m change_id => fun x => if x = change_id then m x + 1 else m x)
        m) c
      = m c + history.count c := by
  induction history with
  | nil => intro m c; simp
  | cons a t ih =>
    intro m c
    simp only [List.foldl_cons]
    rw [ih]
    by_cases h : c = a
    · subst h
      rw [if_pos rfl, List.count_cons_self]
      omega
    · simp only [if_neg h, List.count_cons_of_ne h]

/-- C1 counterexample: a Labeled template with the single label a over a
literal whose write fails: format reports failure while the pushed label a
is still on the (initially empty) label stack, so the pushed label was not
popped before the error was propagated. -/
theorem claim1_counterexample :
    ((Tmpl.label (Tmpl.literal "boom") ["a"] : Tmpl Unit).format ()
        { stack := [], out := [], failOn := ["boom"] }).2 = false ∧
      ((Tmpl.label (Tmpl.literal "boom") ["a"] : Tmpl Unit).format ()
          { stack := [], out := [], failOn := ["boom"] }).1.stack ≠ [] := by
  decide

/-- C1 amended: for every Labeled or DynamicLabeled template, context and
sink state, format pushes each label in outer-to-inner order and renders
the inner template under the so-extended label stack; when the inner
render succeeds it pops every pushed label, restoring the label stack to
its initial value; when the inner render fails, the error is propagated
immediately and the pushed labels are not popped. -/
theorem claim1_amended {C : Type} (content : Tmpl C) (labels : List String)
    (label_property : C → List String) (c : C) (st : FmtState) :
    ((Tmpl.label content labels).format c st =
      (let r := content.format c { st with stack := st.stack ++ labels }
       if r.2 then ({ r.1 with stack := st.stack }, true) else r)) ∧
    ((Tmpl.dynamicLabel content label_property).format c st =
      (let r := content.format c
          { st with stack := st.stack ++ label_property c }
       if r.2 then ({ r.1 with stack := st.stack }, true) else r)) := by
  constructor
  · simp only [Tmpl.format, pushLabels_eq]
    rcases hf : content.format c { st with stack := st.stack ++ labels }
      with ⟨st2, ok⟩
    cases ok with
    | false => simp
    | true =>
      have hst2 : st2.stack = st.stack ++ labels := by
        have h1 := Tmpl.format_stack content c
          { st with stack := st.stack ++ labels }
        rw [hf] at h1
        simpa using h1 rfl
      simp [popLabels_eq, hst2, popStack_append]
  · simp only [Tmpl.format, pushLabels_eq]
    rcases hf : content.format c
        { st with stack := st.stack ++ label_property c } with ⟨st2, ok⟩
    cases ok with
    | false => simp
    | true =>
      have hst2 : st2.stack = st.stack ++ label_property c := by
        have h1 := Tmpl.format_stack content c
          { st with stack := st.stack ++ label_property c }
        rw [hf] at h1
        simpa using h1 rfl
      simp [popLabels_eq, hst2, popStack_append]

/-- C2 counterexample: for the identifier with hex encoding abcdef012345
and reported unique-prefix length 4, short_prefix_and_brackets yields
abcd[ef0123] (four plain then six bracketed characters), not the
abcd[ef01] of the claim example. -/
theorem claim2_counterexample :
    CommitOrChangeId.short_prefix_and_brackets [171, 205, 239, 1, 35, 69] 4 =
        "abcd[ef0123]".toList ∧
      CommitOrChangeId.short_prefix_and_brackets [171, 205, 239, 1, 35, 69] 4 ≠
        "abcd[ef01]".toList := by
  decide

/-- C2 amended: for an identifier whose hex encoding has at least 12
characters (total_len is 12): when the reported unique-prefix length p is
smaller than 10, the rendering is the first p hex characters plain,
followed by the next disambiguating segment up to character position 10 in
square brackets, and the plain and bracketed parts together are exactly
the first 10 hex characters (everything beyond dropped) — for hex
abcdef012345 with p equal to 4 this gives abcd[ef0123]; when p is at least
10, the result is the plain 12-character truncation containing no
bracket. -/
theorem claim2_amended (id : List Nat) (p : Nat)
    (_hlen : 12 ≤ (CommitOrChangeId.hex id).length) :
    (p < 10 →
      CommitOrChangeId.short_prefix_and_brackets id p =
        (CommitOrChangeId.hex id).take p ++
          ('[' :: ((CommitOrChangeId.hex id).take 10).drop p) ++ [']'] ∧
      (CommitOrChangeId.hex id).take p ++
          ((CommitOrChangeId.hex id).take 10).drop p =
        (CommitOrChangeId.hex id).take 10) ∧
    (10 ≤ p →
      CommitOrChangeId.short_prefix_and_brackets id p =
        (CommitOrChangeId.hex id).take 12 ∧
      '[' ∉ CommitOrChangeId.short_prefix_and_brackets id p) := by
  constructor
  · intro hp
    constructor
    · simp [CommitOrChangeId.short_prefix_and_brackets,
        highlight_shortest_prefix, strSlice, hp]
    · have h1 : (CommitOrChangeId.hex id).take p =
          ((CommitOrChangeId.hex id).take 10).take p := by
        rw [List.take_take, Nat.min_eq_left (Nat.le_of_lt hp)]
      rw [h1, List.take_append_drop]
  · intro hp
    have hnot : ¬ p < 12 - 2 := by omega
    constructor
    · simp [CommitOrChangeId.short_prefix_and_brackets,
        highlight_shortest_prefix, hnot]
    · simp only [CommitOrChangeId.short_prefix_and_brackets,
        highlight_shortest_prefix, hnot, if_false]
      intro hmem
      exact hex_not_bracket id (List.take_subset _ _ hmem)

/-- Witness for the amended C2 at both branches: the concrete identifier
with hex abcdef012345, once with unique-prefix length 4 and once with 10. -/
theorem claim2_amended_witness :
    CommitOrChangeId.short_prefix_and_brackets [171, 205, 239, 1, 35, 69] 4 =
        (CommitOrChangeId.hex [171, 205, 239, 1, 35, 69]).take 4 ++
          ('[' ::
            ((CommitOrChangeId.hex [171, 205, 239, 1, 35, 69]).take 10).drop 4)
          ++ [']'] ∧
      CommitOrChangeId.short_prefix_and_brackets [171, 205, 239, 1, 35, 69]
          10 =
        (CommitOrChangeId.hex [171, 205, 239, 1, 35, 69]).take 12 :=
  ⟨((claim2_amended [171, 205, 239, 1, 35, 69] 4 (by decide)).1
      (by decide)).1,
    ((claim2_amended [171, 205, 239, 1, 35, 69] 10 (by decide)).2
      (by decide)).1⟩

/-- C3 counterexample: the nonempty description consisting of the letter a
and two newlines already ends in a newline, so the extractor returns it
unchanged; the result ends in two newlines, so the extractor does not
ensure exactly one trailing newline. -/
theorem claim3_counterexample :
    DescriptionProperty.extract ⟨0, 0, "a\n\n"⟩ = "a\n\n" ∧
      (DescriptionProperty.extract ⟨0, 0, "a\n\n"⟩).toList.reverse.take 2 =
        ['\n', '\n'] := by
  decide

/-- C3 amended: the Description extractor returns the fixed placeholder
for an empty description; a nonempty description already ending in a
newline is returned unchanged (even when it carries several trailing
newlines); otherwise exactly one newline is appended. -/
theorem claim3_amended (context : Commit) :
    (strIsEmpty context.description = true →
      DescriptionProperty.extract context = "(no description set)\n") ∧
    (strIsEmpty context.description = false →
      strEndsWith context.description '\n' = true →
      DescriptionProperty.extract context = context.description) ∧
    (strIsEmpty context.description = false →
      strEndsWith context.description '\n' = false →
      DescriptionProperty.extract context = context.description ++ "\n") := by
  refine ⟨fun h1 => ?_, fun h1 h2 => ?_, fun h1 h2 => ?_⟩
  · simp [DescriptionProperty.extract, h1]
  · simp [DescriptionProperty.extract, h1, h2]
  · simp [DescriptionProperty.extract, h1, h2]

/-- Witness for the amended C3: hello becomes hello-newline, a
description with a trailing newline is unchanged, and the empty
description becomes the placeholder. -/
theorem claim3_amended_witness :
    DescriptionProperty.extract ⟨0, 0, "hello"⟩ = "hello" ++ "\n" ∧
      DescriptionProperty.extract ⟨0, 0, "hello\n"⟩ = "hello\n" ∧
      DescriptionProperty.extract ⟨0, 0, ""⟩ = "(no description set)\n" :=
  ⟨(claim3_amended ⟨0, 0, "hello"⟩).2.2 (by decide) (by decide),
    (claim3_amended ⟨0, 0, "hello\n"⟩).2.1 (by decide) (by decide),
    (claim3_amended ⟨0, 0, ""⟩).1 (by decide)⟩

/-- C5: the Divergent extractor returns true exactly when the commit's
change identity occurs more than once in the full history scanned at
construction; in the example history with change identities 0, 1, 1 the
identity 1 is divergent and the identity 0 is not. -/
theorem claim5_divergent (history : List Nat) (context : Commit) :
    ((DivergentProperty.new history).extract context = true ↔
      1 < history.count context.change_id) ∧
    (DivergentProperty.new [0, 1, 1]).extract ⟨7, 1, ""⟩ = true ∧
    (DivergentProperty.new [0, 1, 1]).extract ⟨8, 0, ""⟩ = false := by
  refine ⟨?_, by decide, by decide⟩
  simp only [DivergentProperty.new, DivergentProperty.extract]
  rw [foldl_count_aux]
  simp

/-- C10: CommitOrChangeId::short is total and never fails on short inputs:
it returns the full hex encoding whenever that encoding has fewer than 12
characters, and exactly the first 12 hex characters otherwise. -/
theorem claim10_short_total (id : List Nat) :
    ((CommitOrChangeId.hex id).length < 12 →
      CommitOrChangeId.short id = CommitOrChangeId.hex id) ∧
    (12 ≤ (CommitOrChangeId.hex id).length →
      CommitOrChangeId.short id = (CommitOrChangeId.hex id).take 12 ∧
        (CommitOrChangeId.short id).length = 12) := by
  constructor
  · intro h
    exact List.take_of_length_le (by omega)
  · intro h
    refine ⟨rfl, ?_⟩
    simp only [CommitOrChangeId.short, List.length_take]
    omega

/-- Witness for C10 at a one-byte identifier (hex shorter than 12) and a
seven-byte identifier (hex longer than 12). -/
theorem claim10_short_total_witness :
    CommitOrChangeId.short [171] = CommitOrChangeId.hex [171] ∧
      CommitOrChangeId.short [171, 205, 239, 1, 35, 69, 171] =
        (CommitOrChangeId.hex [171, 205, 239, 1, 35, 69, 171]).take 12 :=
  ⟨(claim10_short_total [171]).1 (by decide),
    ((claim10_short_total [171, 205, 239, 1, 35, 69, 171]).2 (by decide)).1⟩

theorem string_empty_append (s : String) : "" ++ s = s := by
  cases s
  rfl

/-- C6: prepend_label inserts the new label at the front of a Labeled
node's label sequence, making it the new outermost label, and wraps any
other node in a new Labeled node with a singleton label sequence;
consequently applying prepend_label with x and then with y renders, against
every sink state, exactly like the directly constructed Labeled node with
label sequence y then x. -/
theorem claim6_prepend_label :
    (∀ (str : FormattedString) (labels : List String) (name : String),
      (FormattedString.labeled str labels).prepend_label name =
        .labeled str (name :: labels)) ∧
    (∀ (s : String) (name : String),
      (FormattedString.plain s).prepend_label name =
        .labeled (.plain s) [name]) ∧
    (∀ (strs : List FormattedString) (name : String),
      (FormattedString.concat strs).prepend_label name =
        .labeled (.concat strs) [name]) ∧
    (∀ (fs : FormattedString) (x y : String) (st : FmtState),
      ((fs.prepend_label x).prepend_label y).format st =
        (FormattedString.labeled fs [y, x]).format st) := by
  refine ⟨fun str labels name => rfl, fun s name => rfl,
    fun strs name => rfl, ?_⟩
  intro fs x y st
  cases fs with
  | plain s => rfl
  | concat strs => rfl
  | labeled str labels =>
    show (FormattedString.labeled str (y :: x :: labels)).format st = _
    simp only [FormattedString.format, FormattedString.to_template]
    exact Tmpl.format_label_append str.to_template [y, x] labels () st

/-- C7: emptiness distributes over a two-element concatenation, and in
general is_empty is true exactly when every reachable Plain leaf text is
empty. -/
theorem claim7_is_empty :
    (∀ a b : FormattedString,
      (FormattedString.concat [a, b]).is_empty =
        (a.is_empty && b.is_empty)) ∧
    (∀ fs : FormattedString,
      fs.is_empty = fs.leafTexts.all (fun s => s == "")) := by
  constructor
  · intro a b
    simp [FormattedString.is_empty, FormattedString.all_empty]
  · exact FormattedString.is_empty_eq_all_leaves

/-- C9: converting a formatted string built from a plain string back to a
String returns the text unchanged; in general the plain-text conversion is
the in-order concatenation of the Plain leaf texts, and prepend_label
never changes it. -/
theorem claim9_plain_conversion :
    (∀ s : String, (FormattedString.fromString s).toPlainString = s) ∧
    (∀ fs : FormattedString, fs.toPlainString = fs.leafConcat) ∧
    (∀ (fs : FormattedString) (label : String),
      (fs.prepend_label label).toPlainString = fs.toPlainString) := by
  have key : ∀ fs : FormattedString, fs.toPlainString = fs.leafConcat := by
    intro fs
    simp only [FormattedString.toPlainString, FormattedString.format]
    rw [FormattedString.format_pieces fs plainTextState rfl]
    simp only [plainTextState, List.nil_append]
    rw [FormattedString.pieces_texts]
    rfl
  refine ⟨?_, key, ?_⟩
  · intro s
    rw [key]
    show concatTexts [s] = s
    simp only [concatTexts, List.foldl_cons, List.foldl_nil]
    exact string_empty_append s
  · intro fs label
    rw [key, key]
    show concatTexts (fs.prepend_label label).leafTexts =
      concatTexts fs.leafTexts
    congr 1
    cases fs <;>
      simp [FormattedString.prepend_label, FormattedString.leafTexts]

/-- C8: the WorkingCopies extractor is invariant under permutation of the
workspace map, so its output does not depend on the map's internal
iteration order, and the entries it emits are listed in ascending order of
workspace id. -/
theorem claim8_working_copies (wc wc' : List (String × Nat))
    (context : Commit) (hperm : wc.Perm wc') :
    WorkingCopiesProperty.extract wc context =
        WorkingCopiesProperty.extract wc' context ∧
      List.Sorted (fun a b : String => a ≤ b)
        (((WorkingCopiesProperty.sortedEntries wc).filter
            (fun p => p.2 == context.id)).map Prod.fst) := by
  constructor
  · have hsort : WorkingCopiesProperty.sortedEntries wc =
        WorkingCopiesProperty.sortedEntries wc' :=
      List.eq_of_perm_of_sorted
        ((List.perm_insertionSort pairLe wc).trans
          (hperm.trans (List.perm_insertionSort pairLe wc').symm))
        (List.sorted_insertionSort pairLe wc)
        (List.sorted_insertionSort pairLe wc')
    simp only [WorkingCopiesProperty.extract, WorkingCopiesProperty.names,
      hperm.length_eq, hsort]
  · have h1 : List.Sorted pairLe (WorkingCopiesProperty.sortedEntries wc) :=
      List.sorted_insertionSort pairLe wc
    have h2 := List.Pairwise.filter (R := pairLe)
      (fun p => p.2 == context.id) h1
    exact List.Pairwise.map Prod.fst
      (fun a b hab => by
        rcases hab with h | ⟨h, _⟩
        · exact le_of_lt h
        · exact le_of_eq h) h2

/-- Witness for C8: two iteration orders of the same two-workspace map
give the same output. -/
theorem claim8_working_copies_witness :
    WorkingCopiesProperty.extract [("b", 1), ("a", 1)] ⟨1, 0, ""⟩ =
      WorkingCopiesProperty.extract [("a", 1), ("b", 1)] ⟨1, 0, ""⟩ :=
  (claim8_working_copies [("b", 1), ("a", 1)] [("a", 1), ("b", 1)]
    ⟨1, 0, ""⟩ (by decide)).1

theorem branch_local_eq (branch_name : String) (branch_target : BranchTarget)
    (commit_id : Nat) :
    BranchProperty.localEntry branch_name branch_target commit_id =
      branchSpecLocal branch_name branch_target commit_id := by
  cases h : branch_target.local_target with
  | none =>
    simp [BranchProperty.localEntry, branchSpecLocal, h]
  | some lt =>
    simp only [BranchProperty.localEntry, branchSpecLocal, h]
    rfl

theorem branch_remote_eq (branch_name : String)
    (branch_target : BranchTarget) (commit_id : Nat) :
    BranchProperty.remoteEntries branch_name branch_target commit_id =
      branchSpecRemote branch_name branch_target commit_id := rfl

theorem branchNames_eq (commit_id : Nat) :
    ∀ branches : List (String × BranchTarget),
      BranchProperty.branchNames commit_id branches =
        branches.flatMap (fun p =>
          branchSpecLocal p.1 p.2 commit_id ++
            branchSpecRemote p.1 p.2 commit_id)
  | [] => rfl
  | (bn, bt) :: rest => by
    simp only [BranchProperty.branchNames, List.flatMap_cons]
    rw [branch_local_eq, branch_remote_eq, branchNames_eq commit_id rest]

/-- C4: the Branch extractor output equals, for every commit and view, the
claim-side description (per branch the local entry: name plus divergent
double question mark when the local target is conflicted, else the
remote-and-diff-labeled asterisk, outermost label remote, when some remote
target differs; then one name-at-remote entry per differing remote target
that added the commit, with a divergent marker when that remote target is
conflicted; all joined with single spaces); furthermore a branch whose
sole remote target equals its non-conflicted local target emits just the
branch name. -/
theorem claim4_branch (branches : List (String × BranchTarget))
    (context : Commit) :
    (BranchProperty.extract branches context =
      branchSpec branches context.id) ∧
    (∀ (branch_name : String) (lt : Target) (remote_name : String),
      lt.has_add context.id = true → lt.is_conflict = false →
      BranchProperty.branchNames context.id
          [(branch_name, ⟨some lt, [(remote_name, lt)]⟩)] =
        [FormattedString.concat [FormattedString.plain branch_name]]) := by
  constructor
  · simp only [BranchProperty.extract, branchSpec,
      branchNames_eq context.id branches]
  · intro branch_name lt remote_name h1 h2
    simp [BranchProperty.branchNames, BranchProperty.localEntry,
      BranchProperty.remoteEntries, h1, h2]

/-- Witness for C4: a branch main whose non-conflicted local target added
commit 1 and whose sole remote target origin equals the local target emits
just the branch name. -/
theorem claim4_branch_witness :
    BranchProperty.branchNames 1
        [("main", ⟨some ⟨[1], false⟩, [("origin", ⟨[1], false⟩)]⟩)] =
      [FormattedString.concat [FormattedString.plain "main"]] :=
  (claim4_branch [] ⟨1, 0, ""⟩).2 "main" ⟨[1], false⟩ "origin"
    (by decide) (by decide)
